import Mathlib

/-!
Verification of the data-cleaning engine of the ETL application.

The engine is the function clean_data(df, cleaning_options) of src/app.py.
We embed the pandas dataframe as a row-aligned table of dynamic values
(null, string or integer), each cleaning operation as a total function that
may fail (a missing column raises a KeyError in the source, embedded as
Option.none), and the surrounding try/except as a fallback to the empty
dataframe.
-/

namespace ETL

/-- A cell value of the tabular dataset: SQL null, a text value, or an
integer value. This is the tagged-variant view of the dynamic values the
source manipulates. -/
inductive Value where
  | null : Value
  | str : String → Value
  | num : Int → Value
deriving DecidableEq

/-- A row of the dataset, aligned with the column-name list. -/
abbrev Row := List Value

/-- The tabular dataset: an ordered list of column names and an ordered
list of rows. -/
structure Dataset where
  cols : List String
  rows : List Row
deriving DecidableEq

/-- The empty dataframe, as returned by pd.DataFrame() in the except
branch of clean_data. -/
def Dataset.empty : Dataset := ⟨[], []⟩

/-- Number of rows of the dataset. -/
def Dataset.rowCount (df : Dataset) : Nat := df.rows.length

/-- Well-formedness: column names are distinct and every row has one cell
per column. The spec calls this caller-enforced. -/
def Dataset.WF (df : Dataset) : Prop :=
  df.cols.Nodup ∧ ∀ r ∈ df.rows, r.length = df.cols.length

/-- Index of a column name in a list of column names, if present. -/
def colIdx : List String → String → Option Nat
  | [], _ => none
  | c :: cs, name => if c = name then some 0 else (colIdx cs name).map (fun j => j + 1)

/-- The cell of a row at a column index (null when out of range; rows of a
well-formed dataset are always long enough). -/
def cell (r : Row) (j : Nat) : Value := r.getD j Value.null

/-- Decimal digits of a natural number, with explicit fuel so that the
definition is structural and computes inside the kernel. -/
def natToChars : Nat → Nat → List Char
  | 0, _ => []
  | fuel + 1, n =>
    if n < 10 then [Char.ofNat (48 + n)]
    else natToChars fuel (n / 10) ++ [Char.ofNat (48 + n % 10)]

/-- Decimal rendering of a natural number. -/
def natToStr (n : Nat) : String := String.mk (natToChars (n + 1) n)

/-- Decimal rendering of an integer, as Python str() renders an int. -/
def intToStr : Int → String
  | Int.ofNat n => natToStr n
  | Int.negSucc n => "-" ++ natToStr (n + 1)

/-- The textual form of a value, as produced by astype(str) in the source:
a missing value stringifies to "None", text is unchanged, an integer is
rendered in decimal. -/
def toText : Value → String
  | Value.null => "None"
  | Value.str s => s
  | Value.num n => intToStr n

/-- Reads a decimal digit string, accumulator style; none on the first
non-digit character. -/
def digitsToNat (acc : Nat) : List Char → Option Nat
  | [] => some acc
  | c :: cs => if c.isDigit then digitsToNat (acc * 10 + (c.toNat - 48)) cs else none

/-- Integer parse of a string, modelling the numeric coercion that
pd.to_numeric applies to text cells: an optional leading minus sign
followed by decimal digits. -/
def strToNum (s : String) : Option Int :=
  match s.toList with
  | [] => none
  | '-' :: cs => if cs.isEmpty then none else (digitsToNat 0 cs).map (fun n => -(n : Int))
  | cs => (digitsToNat 0 cs).map (fun n => (n : Int))

/-- Numeric coercion of a value, as pd.to_numeric with errors="coerce":
null coerces to NaN (failure), numbers succeed, text is parsed. -/
def toNum : Value → Option Int
  | Value.null => none
  | Value.num n => some n
  | Value.str s => strToNum s

/-- Predicate of the remove_nulls rule: the cell is not null. -/
def isNotNull : Value → Bool
  | Value.null => false
  | _ => true

/-- Predicate of the validate_string rule: the textual form of the cell,
stripped of surrounding whitespace, is nonempty. -/
def validStr (v : Value) : Bool := (toText v).trim != ""

/-- Predicate of the validate_length rule: the textual form of the cell
has length at least 3. -/
def validLen (v : Value) : Bool := decide (3 ≤ (toText v).length)

/-- Predicate of the validate_numeric rule: the cell coerces to a number. -/
def validNum (v : Value) : Bool := (toNum v).isSome

/-- Keep the rows whose cell at column index j satisfies p. This is the
boolean-mask filtering df[mask] of the source. -/
def filterCol (j : Nat) (p : Value → Bool) (rows : List Row) : List Row :=
  rows.filter (fun r => p (cell r j))

/-- First-occurrence deduplication by key, carrying the set of keys already
seen, as drop_duplicates(keep="first") does. -/
def dedupAux {α β : Type} [DecidableEq β] (f : α → β) (seen : List β) : List α → List α
  | [] => []
  | a :: as => if f a ∈ seen then dedupAux f seen as else a :: dedupAux f (f a :: seen) as

/-- Keep the first row for each distinct value of column index j. -/
def dedupRows (j : Nat) (rows : List Row) : List Row :=
  dedupAux (fun r => cell r j) [] rows

/-- df.drop_duplicates(subset=[column], keep="first"); none when the column
is absent (KeyError in the source). -/
def dropDuplicatesCol (df : Dataset) (c : String) : Option Dataset :=
  (colIdx df.cols c).map (fun j => ⟨df.cols, dedupRows j df.rows⟩)

/-- Row filtering of the dataset by a predicate on one column; none when
the column is absent (KeyError in the source). -/
def filterOnCol (df : Dataset) (c : String) (p : Value → Bool) : Option Dataset :=
  (colIdx df.cols c).map (fun j => ⟨df.cols, filterCol j p df.rows⟩)

/-- The per-column body of clean_data: the source tests membership of each
rule name in the option list and applies the rules in this fixed textual
order, not in the order the list gives them. -/
def applyOptions (df : Dataset) (c : String) (os : List String) : Option Dataset :=
  (if os.contains "drop_duplicates" then dropDuplicatesCol df c else some df).bind (fun d1 =>
  (if os.contains "remove_nulls" then filterOnCol d1 c isNotNull else some d1).bind (fun d2 =>
  (if os.contains "validate_string" then filterOnCol d2 c validStr else some d2).bind (fun d3 =>
  (if os.contains "validate_length" then filterOnCol d3 c validLen else some d3).bind (fun d4 =>
  (if os.contains "validate_numeric" then filterOnCol d4 c validNum else some d4)))))

/-- The cleaning-options mapping: column name to list of rule names, in
dict insertion order. -/
abbrev RuleSet := List (String × List String)

/-- The loop of clean_data over cleaning_options.items(), threading the
current dataframe; none as soon as a rule application raises. -/
def cleanBody : Dataset → RuleSet → Option Dataset
  | df, [] => some df
  | df, (c, os) :: rest => (applyOptions df c os).bind (fun d => cleanBody d rest)

/-- Overwrite the cell at column index j of each row with a running
integer, starting at k. -/
def setIds (j k : Nat) : List Row → List Row
  | [] => []
  | r :: rs => r.set j (Value.num (Int.ofNat k)) :: setIds j (k + 1) rs

/-- Append a running integer cell, starting at k, to each row. -/
def appendIds (k : Nat) : List Row → List Row
  | [] => []
  | r :: rs => (r ++ [Value.num (Int.ofNat k)]) :: appendIds (k + 1) rs

/-- The statement df["id"] = range(1, len(df) + 1): overwrite the id
column when it exists, otherwise append it, with values 1..n in row
order. -/
def assignId (df : Dataset) : Dataset :=
  match colIdx df.cols "id" with
  | some j => ⟨df.cols, setIds j 1 df.rows⟩
  | none => ⟨df.cols ++ ["id"], appendIds 1 df.rows⟩

/-- clean_data(df, cleaning_options): run the per-column loop then assign
the id column; the surrounding except branch turns any raised error into
an empty dataframe result. -/
def clean_data (df : Dataset) (opts : RuleSet) : Dataset :=
  match cleanBody df opts with
  | some d => assignId d
  | none => Dataset.empty

/-- Whether a string is one of the five rule names clean_data reacts to. -/
def isRuleName (n : String) : Bool :=
  n == "drop_duplicates" || n == "remove_nulls" || n == "validate_string" ||
    n == "validate_length" || n == "validate_numeric"

/-- Whether any configured rule list contains a recognised rule name, i.e.
whether clean_data executes at least one dataframe operation. -/
def anyRuleConfigured (opts : RuleSet) : Bool :=
  opts.any (fun e => e.2.any isRuleName)

/-- The state of the caller-owned input dataframe after clean_data
returns. In the source, df names the caller-owned object until the first
rule application rebinds it to a fresh dataframe; every rule application
that runs returns a fresh object, so when at least one recognised rule is
configured the input is never written. When none is configured, the
statement df["id"] = range(...) executes against the original object and
mutates it in place. -/
def inputAfterClean (df : Dataset) (opts : RuleSet) : Dataset :=
  if anyRuleConfigured opts then df else assignId df

/-- The values of a named column, when present. -/
def getCol (df : Dataset) (c : String) : Option (List Value) :=
  (colIdx df.cols c).map (fun j => df.rows.map (fun r => cell r j))

/-- The list of id values 1..n. -/
def idList (n : Nat) : List Value :=
  (List.range n).map (fun i => Value.num (Int.ofNat (i + 1)))

/-- The dataset with its id column (when present) removed, for comparing
input and output rows while ignoring the synthetic identity column. -/
def stripId (df : Dataset) : Dataset :=
  match colIdx df.cols "id" with
  | some j => ⟨df.cols.eraseIdx j, df.rows.map (fun r => r.eraseIdx j)⟩
  | none => df

/-- Whether an option list contains at least one recognised rule name, so
that clean_data executes at least one dataframe operation for it. -/
def hasRuleConfigured (os : List String) : Bool := os.any isRuleName

/-- Apply a row transformation when the flag is set. -/
def stepIf (b : Bool) (f : List Row → List Row) (rows : List Row) : List Row :=
  if b then f rows else rows

/-- Normal form of the per-column rule pass on the row list, parametrised
by which of the five rules are present: deduplicate first, then the four
filters, in the fixed textual order of the source. -/
def nfRowsB (b1 b2 b3 b4 b5 : Bool) (j : Nat) (rows : List Row) : List Row :=
  stepIf b5 (filterCol j validNum)
    (stepIf b4 (filterCol j validLen)
      (stepIf b3 (filterCol j validStr)
        (stepIf b2 (filterCol j isNotNull)
          (stepIf b1 (dedupRows j) rows))))

/-- Normal form of the per-column rule pass, driven by membership in the
option list. -/
def nfRows (os : List String) (j : Nat) (rows : List Row) : List Row :=
  nfRowsB (os.contains "drop_duplicates") (os.contains "remove_nulls")
    (os.contains "validate_string") (os.contains "validate_length")
    (os.contains "validate_numeric") j rows

/-- Modelled from the spec: the action of one named rule on the dataset.
The spec draws rule identifiers from a fixed enumeration of five names;
identifiers outside it have no action. -/
def applyRuleName (df : Dataset) (c : String) (n : String) : Option Dataset :=
  if n = "drop_duplicates" then dropDuplicatesCol df c
  else if n = "remove_nulls" then filterOnCol df c isNotNull
  else if n = "validate_string" then filterOnCol df c validStr
  else if n = "validate_length" then filterOnCol df c validLen
  else if n = "validate_numeric" then filterOnCol df c validNum
  else some df

/-- Modelled from the spec: rule identifiers are applied in the order
listed per column. -/
def applyListed (c : String) : List String → Dataset → Option Dataset
  | [], df => some df
  | n :: ns, df => (applyRuleName df c n).bind (applyListed c ns)

/-- Modelled from the spec: the whole clean body with each column applying
its rules in listed order. -/
def cleanBodyListed : Dataset → RuleSet → Option Dataset
  | df, [] => some df
  | df, (c, os) :: rest => (applyListed c os df).bind (fun d => cleanBodyListed d rest)

/-- Modelled from the spec: clean with listed-order rule application. -/
def cleanDataListed (df : Dataset) (opts : RuleSet) : Dataset :=
  match cleanBodyListed df opts with
  | some d => assignId d
  | none => Dataset.empty

/-- Modelled from the spec: columns are processed in the order the dataset
lists them, each looking up its configured rules. -/
def cleanColsOrdered (opts : RuleSet) : List String → Dataset → Option Dataset
  | [], df => some df
  | c :: cs, df => (applyOptions df c ((opts.lookup c).getD [])).bind (cleanColsOrdered opts cs)

/-- Modelled from the spec: clean processing columns in dataset column
order rather than in the order of the rule-set mapping. -/
def cleanDataColOrder (df : Dataset) (opts : RuleSet) : Dataset :=
  match cleanColsOrdered opts df.cols df with
  | some d => assignId d
  | none => Dataset.empty

/-- Modelled from the spec: a rule list naming a column that the dataset
does not have is skipped, non-fatally. -/
def applyOptionsSkip (df : Dataset) (c : String) (os : List String) : Option Dataset :=
  if df.cols.contains c then applyOptions df c os else some df

/-- Modelled from the spec: clean body under the skip-unknown-column
policy. -/
def cleanBodySkip : Dataset → RuleSet → Option Dataset
  | df, [] => some df
  | df, (c, os) :: rest => (applyOptionsSkip df c os).bind (fun d => cleanBodySkip d rest)

/-- Modelled from the spec: clean under the skip-unknown-column policy. -/
def cleanDataSkip (df : Dataset) (opts : RuleSet) : Dataset :=
  match cleanBodySkip df opts with
  | some d => assignId d
  | none => Dataset.empty

theorem colIdx_eq_none_iff (cs : List String) (c : String) : colIdx cs c = none ↔ c ∉ cs := by
  induction cs with
  | nil => simp [colIdx]
  | cons a as ih =>
    by_cases h : a = c
    · subst h
      simp [colIdx]
    · simp only [colIdx, if_neg h, Option.map_eq_none', ih, List.mem_cons]
      constructor
      · intro hna hor
        exact hor.elim (fun hc => h hc.symm) hna
      · intro hn ha
        exact hn (Or.inr ha)

theorem colIdx_mem {cs : List String} {c : String} {j : Nat} (h : colIdx cs c = some j) :
    c ∈ cs := by
  by_contra hc
  rw [← colIdx_eq_none_iff cs c] at hc
  rw [h] at hc
  exact Option.noConfusion hc

theorem colIdx_lt {cs : List String} {c : String} {j : Nat} (h : colIdx cs c = some j) :
    j < cs.length := by
  induction cs generalizing j with
  | nil => exact absurd h (by simp [colIdx])
  | cons a as ih =>
    by_cases hac : a = c
    · rw [colIdx, if_pos hac] at h
      cases h
      simp
    · rw [colIdx, if_neg hac] at h
      match hj : colIdx as c with
      | none => rw [hj] at h; exact absurd h (by simp)
      | some j0 =>
        rw [hj] at h
        simp only [Option.map_some'] at h
        cases h
        simpa using ih hj

theorem colIdx_append_self (cs : List String) (c : String) (h : c ∉ cs) :
    colIdx (cs ++ [c]) c = some cs.length := by
  induction cs with
  | nil => simp [colIdx]
  | cons a as ih =>
    have ha : a ≠ c := fun hac => h (hac ▸ List.mem_cons_self a as)
    have has : c ∉ as := fun hc => h (List.mem_cons_of_mem a hc)
    simp [colIdx, ha, ih has]

theorem cell_set_self {r : Row} {j : Nat} (v : Value) (h : j < r.length) :
    cell (r.set j v) j = v := by
  induction r generalizing j with
  | nil => simp at h
  | cons a as ih =>
    cases j with
    | zero => rfl
    | succ j0 => exact ih (Nat.lt_of_succ_lt_succ h)

theorem cell_append_len (r : Row) (v : Value) : cell (r ++ [v]) r.length = v := by
  induction r with
  | nil => rfl
  | cons a as ih => exact ih

theorem eraseIdx_set {α : Type} (r : List α) (j : Nat) (v : α) :
    (r.set j v).eraseIdx j = r.eraseIdx j := by
  induction r generalizing j with
  | nil => rfl
  | cons a as ih =>
    cases j with
    | zero => rfl
    | succ j0 => simp [List.set, List.eraseIdx, ih]

theorem eraseIdx_append_len {α : Type} (r : List α) (v : α) :
    (r ++ [v]).eraseIdx r.length = r := by
  induction r with
  | nil => rfl
  | cons a as ih => simp [List.eraseIdx, ih]

theorem dedupAux_congr {α β : Type} [DecidableEq β] (f : α → β) (seen1 seen2 : List β)
    (l : List α) (h : ∀ b, b ∈ seen1 ↔ b ∈ seen2) :
    dedupAux f seen1 l = dedupAux f seen2 l := by
  induction l generalizing seen1 seen2 with
  | nil => rfl
  | cons a as ih =>
    by_cases hm : f a ∈ seen1
    · rw [dedupAux, if_pos hm, dedupAux, if_pos ((h (f a)).mp hm)]
      exact ih seen1 seen2 h
    · rw [dedupAux, if_neg hm, dedupAux, if_neg (fun hm2 => hm ((h (f a)).mpr hm2))]
      refine congrArg (a :: ·) (ih _ _ ?_)
      intro b
      simp [h b]

theorem dedupAux_irrel {α β : Type} [DecidableEq β] (f : α → β) (k : β) (seen : List β)
    (l : List α) (h : ∀ b ∈ l, f b ≠ k) :
    dedupAux f (k :: seen) l = dedupAux f seen l := by
  induction l generalizing seen with
  | nil => rfl
  | cons a as ih =>
    have hak : f a ≠ k := h a (List.mem_cons_self a as)
    have has : ∀ b ∈ as, f b ≠ k := fun b hb => h b (List.mem_cons_of_mem a hb)
    by_cases hm : f a ∈ seen
    · rw [dedupAux, if_pos (List.mem_cons_of_mem k hm), dedupAux, if_pos hm]
      exact ih seen has
    · have hm2 : f a ∉ k :: seen := by
        intro hc
        exact (List.mem_cons.mp hc).elim hak hm
      rw [dedupAux, if_neg hm2, dedupAux, if_neg hm]
      refine congrArg (a :: ·) ?_
      calc dedupAux f (f a :: k :: seen) as
          = dedupAux f (k :: f a :: seen) as :=
            dedupAux_congr f _ _ as (by intro b; simp; tauto)
        _ = dedupAux f (f a :: seen) as := ih (f a :: seen) has

theorem dedupAux_sublist {α β : Type} [DecidableEq β] (f : α → β) (seen : List β)
    (l : List α) : List.Sublist (dedupAux f seen l) l := by
  induction l generalizing seen with
  | nil => exact List.Sublist.refl []
  | cons a as ih =>
    by_cases hm : f a ∈ seen
    · rw [dedupAux, if_pos hm]
      exact List.Sublist.cons a (ih seen)
    · rw [dedupAux, if_neg hm]
      exact List.Sublist.cons₂ a (ih (f a :: seen))

theorem dedupAux_idem {α β : Type} [DecidableEq β] (f : α → β) (seen : List β) (l : List α) :
    dedupAux f seen (dedupAux f seen l) = dedupAux f seen l := by
  induction l generalizing seen with
  | nil => rfl
  | cons a as ih =>
    by_cases hm : f a ∈ seen
    · rw [dedupAux, if_pos hm]
      exact ih seen
    · rw [dedupAux, if_neg hm, dedupAux, if_neg hm]
      exact congrArg (a :: ·) (ih (f a :: seen))

theorem dedupAux_filter {α β : Type} [DecidableEq β] (f : α → β) (p : β → Bool)
    (seen : List β) (l : List α) :
    (dedupAux f seen l).filter (fun a => p (f a)) =
      dedupAux f seen (l.filter (fun a => p (f a))) := by
  induction l generalizing seen with
  | nil => rfl
  | cons a as ih =>
    cases hp : p (f a) with
    | true =>
      have hf : (a :: as).filter (fun b => p (f b)) = a :: as.filter (fun b => p (f b)) := by
        simp [List.filter_cons, hp]
      by_cases hm : f a ∈ seen
      · rw [dedupAux, if_pos hm, hf, dedupAux, if_pos hm]
        exact ih seen
      · have hf2 : (a :: dedupAux f (f a :: seen) as).filter (fun b => p (f b)) =
            a :: (dedupAux f (f a :: seen) as).filter (fun b => p (f b)) := by
          simp [List.filter_cons, hp]
        rw [dedupAux, if_neg hm, hf, dedupAux, if_neg hm, hf2]
        exact congrArg (a :: ·) (ih (f a :: seen))
    | false =>
      have hf : (a :: as).filter (fun b => p (f b)) = as.filter (fun b => p (f b)) := by
        simp [List.filter_cons, hp]
      by_cases hm : f a ∈ seen
      · rw [dedupAux, if_pos hm, hf]
        exact ih seen
      · have hf2 : (a :: dedupAux f (f a :: seen) as).filter (fun b => p (f b)) =
            (dedupAux f (f a :: seen) as).filter (fun b => p (f b)) := by
          simp [List.filter_cons, hp]
        rw [dedupAux, if_neg hm, hf, hf2, ih (f a :: seen)]
        refine dedupAux_irrel f (f a) seen _ ?_
        intro b hb hfb
        have hpb : p (f b) = true := (List.mem_filter.mp hb).2
        rw [hfb, hp] at hpb
        exact Bool.noConfusion hpb

theorem filterCol_sublist (j : Nat) (p : Value → Bool) (rows : List Row) :
    List.Sublist (filterCol j p rows) rows := List.filter_sublist rows

theorem dedupRows_sublist (j : Nat) (rows : List Row) :
    List.Sublist (dedupRows j rows) rows := dedupAux_sublist _ [] rows

theorem dedupRows_idem (j : Nat) (rows : List Row) :
    dedupRows j (dedupRows j rows) = dedupRows j rows := dedupAux_idem _ [] rows

theorem filterCol_dedupRows (j : Nat) (p : Value → Bool) (rows : List Row) :
    filterCol j p (dedupRows j rows) = dedupRows j (filterCol j p rows) :=
  dedupAux_filter (fun r => cell r j) p [] rows

theorem filterCol_filterCol (j : Nat) (p q : Value → Bool) (rows : List Row) :
    filterCol j p (filterCol j q rows) = filterCol j (fun v => p v && q v) rows := by
  unfold filterCol
  rw [List.filter_filter]

theorem filterCol_comm (j : Nat) (p q : Value → Bool) (rows : List Row) :
    filterCol j p (filterCol j q rows) = filterCol j q (filterCol j p rows) := by
  rw [filterCol_filterCol, filterCol_filterCol]
  refine congrFun (congrArg _ ?_) rows
  funext v
  exact Bool.and_comm (p v) (q v)

theorem filterCol_idem (j : Nat) (p : Value → Bool) (rows : List Row) :
    filterCol j p (filterCol j p rows) = filterCol j p rows := by
  rw [filterCol_filterCol]
  refine congrFun (congrArg _ ?_) rows
  funext v
  exact Bool.and_self (p v)

theorem stepIf_dedup_filter (b : Bool) (j : Nat) (p : Value → Bool) (rows : List Row) :
    stepIf b (dedupRows j) (filterCol j p rows) =
      filterCol j p (stepIf b (dedupRows j) rows) := by
  cases b
  · rfl
  · exact (filterCol_dedupRows j p rows).symm

theorem stepIf_filter_filter (b : Bool) (j : Nat) (p q : Value → Bool) (rows : List Row) :
    stepIf b (filterCol j q) (filterCol j p rows) =
      filterCol j p (stepIf b (filterCol j q) rows) := by
  cases b
  · rfl
  · exact filterCol_comm j q p rows

theorem stepIf_filter_merge (b : Bool) (j : Nat) (p : Value → Bool) (rows : List Row) :
    stepIf b (filterCol j p) (filterCol j p rows) =
      stepIf true (filterCol j p) rows := by
  cases b
  · rfl
  · exact filterCol_idem j p rows

theorem stepIf_dedup_merge (b : Bool) (j : Nat) (rows : List Row) :
    stepIf b (dedupRows j) (dedupRows j rows) = stepIf true (dedupRows j) rows := by
  cases b
  · rfl
  · exact dedupRows_idem j rows

theorem nfRowsB_push_dd (b1 b2 b3 b4 b5 : Bool) (j : Nat) (rows : List Row) :
    nfRowsB b1 b2 b3 b4 b5 j (dedupRows j rows) = nfRowsB true b2 b3 b4 b5 j rows := by
  simp only [nfRowsB, stepIf_dedup_merge]

theorem nfRowsB_push_rn (b1 b2 b3 b4 b5 : Bool) (j : Nat) (rows : List Row) :
    nfRowsB b1 b2 b3 b4 b5 j (filterCol j isNotNull rows) =
      nfRowsB b1 true b3 b4 b5 j rows := by
  simp only [nfRowsB, stepIf_dedup_filter, stepIf_filter_merge]

theorem nfRowsB_push_vs (b1 b2 b3 b4 b5 : Bool) (j : Nat) (rows : List Row) :
    nfRowsB b1 b2 b3 b4 b5 j (filterCol j validStr rows) =
      nfRowsB b1 b2 true b4 b5 j rows := by
  simp only [nfRowsB]
  rw [stepIf_dedup_filter, stepIf_filter_filter, stepIf_filter_merge]

theorem nfRowsB_push_vl (b1 b2 b3 b4 b5 : Bool) (j : Nat) (rows : List Row) :
    nfRowsB b1 b2 b3 b4 b5 j (filterCol j validLen rows) =
      nfRowsB b1 b2 b3 true b5 j rows := by
  simp only [nfRowsB]
  rw [stepIf_dedup_filter, stepIf_filter_filter, stepIf_filter_filter, stepIf_filter_merge]

theorem nfRowsB_push_vn (b1 b2 b3 b4 b5 : Bool) (j : Nat) (rows : List Row) :
    nfRowsB b1 b2 b3 b4 b5 j (filterCol j validNum rows) =
      nfRowsB b1 b2 b3 b4 true j rows := by
  simp only [nfRowsB]
  rw [stepIf_dedup_filter, stepIf_filter_filter, stepIf_filter_filter, stepIf_filter_filter,
    stepIf_filter_merge]

theorem contains_cons_eq (x n : String) (ns : List String) :
    (n :: ns).contains x = (x == n || ns.contains x) := rfl

theorem contains_cons_self (n : String) (ns : List String) : (n :: ns).contains n = true := by
  rw [contains_cons_eq]
  simp

theorem contains_cons_ne (x n : String) (ns : List String) (h : (x == n) = false) :
    (n :: ns).contains x = ns.contains x := by
  rw [contains_cons_eq, h, Bool.false_or]

theorem applyOptions_of_some (cols : List String) (rows : List Row) (c : String) (j : Nat)
    (h : colIdx cols c = some j) (os : List String) :
    applyOptions ⟨cols, rows⟩ c os = some ⟨cols, nfRows os j rows⟩ := by
  by_cases hb1 : "drop_duplicates" ∈ os <;>
    by_cases hb2 : "remove_nulls" ∈ os <;>
      by_cases hb3 : "validate_string" ∈ os <;>
        by_cases hb4 : "validate_length" ∈ os <;>
          by_cases hb5 : "validate_numeric" ∈ os <;>
            simp [applyOptions, nfRows, nfRowsB, stepIf, dropDuplicatesCol, filterOnCol,
              h, hb1, hb2, hb3, hb4, hb5]

theorem applyOptions_of_none (df : Dataset) (c : String)
    (h : colIdx df.cols c = none) (os : List String) :
    applyOptions df c os =
      if os.contains "drop_duplicates" || os.contains "remove_nulls" ||
          os.contains "validate_string" || os.contains "validate_length" ||
          os.contains "validate_numeric" then none
      else some df := by
  by_cases hb1 : "drop_duplicates" ∈ os <;>
    by_cases hb2 : "remove_nulls" ∈ os <;>
      by_cases hb3 : "validate_string" ∈ os <;>
        by_cases hb4 : "validate_length" ∈ os <;>
          by_cases hb5 : "validate_numeric" ∈ os <;>
            simp [applyOptions, dropDuplicatesCol, filterOnCol, h, hb1, hb2, hb3, hb4, hb5]

theorem applyOptions_congr (df : Dataset) (c : String) (os1 os2 : List String)
    (h1 : os1.contains "drop_duplicates" = os2.contains "drop_duplicates")
    (h2 : os1.contains "remove_nulls" = os2.contains "remove_nulls")
    (h3 : os1.contains "validate_string" = os2.contains "validate_string")
    (h4 : os1.contains "validate_length" = os2.contains "validate_length")
    (h5 : os1.contains "validate_numeric" = os2.contains "validate_numeric") :
    applyOptions df c os1 = applyOptions df c os2 := by
  simp only [applyOptions, h1, h2, h3, h4, h5]

theorem applyListed_eq (c : String) (os : List String) (df : Dataset) :
    applyListed c os df = applyOptions df c os := by
  induction os generalizing df with
  | nil => rfl
  | cons n ns ih =>
    by_cases h1 : n = "drop_duplicates"
    · subst h1
      cases hcol : colIdx df.cols c with
      | some j =>
        calc applyListed c ("drop_duplicates" :: ns) df
            = (dropDuplicatesCol df c).bind (applyListed c ns) := by
              rw [applyListed, applyRuleName, if_pos rfl]
          _ = applyListed c ns ⟨df.cols, dedupRows j df.rows⟩ := by
              rw [dropDuplicatesCol, hcol]
              rfl
          _ = applyOptions ⟨df.cols, dedupRows j df.rows⟩ c ns := ih _
          _ = some ⟨df.cols, nfRows ns j (dedupRows j df.rows)⟩ :=
              applyOptions_of_some df.cols (dedupRows j df.rows) c j hcol ns
          _ = some ⟨df.cols, nfRows ("drop_duplicates" :: ns) j df.rows⟩ := by
              rw [nfRows, nfRowsB_push_dd, nfRows, contains_cons_self,
                contains_cons_ne "remove_nulls" "drop_duplicates" ns (by decide),
                contains_cons_ne "validate_string" "drop_duplicates" ns (by decide),
                contains_cons_ne "validate_length" "drop_duplicates" ns (by decide),
                contains_cons_ne "validate_numeric" "drop_duplicates" ns (by decide)]
          _ = applyOptions df c ("drop_duplicates" :: ns) :=
              (applyOptions_of_some df.cols df.rows c j hcol _).symm
      | none =>
        calc applyListed c ("drop_duplicates" :: ns) df
            = (dropDuplicatesCol df c).bind (applyListed c ns) := by
              rw [applyListed, applyRuleName, if_pos rfl]
          _ = none := by rw [dropDuplicatesCol, hcol]; rfl
          _ = applyOptions df c ("drop_duplicates" :: ns) := by
              simp [applyOptions_of_none df c hcol, contains_cons_self]
    · by_cases h2 : n = "remove_nulls"
      · subst h2
        cases hcol : colIdx df.cols c with
        | some j =>
          calc applyListed c ("remove_nulls" :: ns) df
              = (filterOnCol df c isNotNull).bind (applyListed c ns) := by
                rw [applyListed, applyRuleName, if_neg (by decide), if_pos rfl]
            _ = applyListed c ns ⟨df.cols, filterCol j isNotNull df.rows⟩ := by
                rw [filterOnCol, hcol]
                rfl
            _ = applyOptions ⟨df.cols, filterCol j isNotNull df.rows⟩ c ns := ih _
            _ = some ⟨df.cols, nfRows ns j (filterCol j isNotNull df.rows)⟩ :=
                applyOptions_of_some df.cols (filterCol j isNotNull df.rows) c j hcol ns
            _ = some ⟨df.cols, nfRows ("remove_nulls" :: ns) j df.rows⟩ := by
                rw [nfRows, nfRowsB_push_rn, nfRows, contains_cons_self,
                  contains_cons_ne "drop_duplicates" "remove_nulls" ns (by decide),
                  contains_cons_ne "validate_string" "remove_nulls" ns (by decide),
                  contains_cons_ne "validate_length" "remove_nulls" ns (by decide),
                  contains_cons_ne "validate_numeric" "remove_nulls" ns (by decide)]
            _ = applyOptions df c ("remove_nulls" :: ns) :=
                (applyOptions_of_some df.cols df.rows c j hcol _).symm
        | none =>
          calc applyListed c ("remove_nulls" :: ns) df
              = (filterOnCol df c isNotNull).bind (applyListed c ns) := by
                rw [applyListed, applyRuleName, if_neg (by decide), if_pos rfl]
            _ = none := by rw [filterOnCol, hcol]; rfl
            _ = applyOptions df c ("remove_nulls" :: ns) := by
                simp [applyOptions_of_none df c hcol, contains_cons_self]
      · by_cases h3 : n = "validate_string"
        · subst h3
          cases hcol : colIdx df.cols c with
          | some j =>
            calc applyListed c ("validate_string" :: ns) df
                = (filterOnCol df c validStr).bind (applyListed c ns) := by
                  rw [applyListed, applyRuleName, if_neg (by decide), if_neg (by decide),
                    if_pos rfl]
              _ = applyListed c ns ⟨df.cols, filterCol j validStr df.rows⟩ := by
                  rw [filterOnCol, hcol]
                  rfl
              _ = applyOptions ⟨df.cols, filterCol j validStr df.rows⟩ c ns := ih _
              _ = some ⟨df.cols, nfRows ns j (filterCol j validStr df.rows)⟩ :=
                  applyOptions_of_some df.cols (filterCol j validStr df.rows) c j hcol ns
              _ = some ⟨df.cols, nfRows ("validate_string" :: ns) j df.rows⟩ := by
                  rw [nfRows, nfRowsB_push_vs, nfRows, contains_cons_self,
                    contains_cons_ne "drop_duplicates" "validate_string" ns (by decide),
                    contains_cons_ne "remove_nulls" "validate_string" ns (by decide),
                    contains_cons_ne "validate_length" "validate_string" ns (by decide),
                    contains_cons_ne "validate_numeric" "validate_string" ns (by decide)]
              _ = applyOptions df c ("validate_string" :: ns) :=
                  (applyOptions_of_some df.cols df.rows c j hcol _).symm
          | none =>
            calc applyListed c ("validate_string" :: ns) df
                = (filterOnCol df c validStr).bind (applyListed c ns) := by
                  rw [applyListed, applyRuleName, if_neg (by decide), if_neg (by decide),
                    if_pos rfl]
              _ = none := by rw [filterOnCol, hcol]; rfl
              _ = applyOptions df c ("validate_string" :: ns) := by
                  simp [applyOptions_of_none df c hcol, contains_cons_self]
        · by_cases h4 : n = "validate_length"
          · subst h4
            cases hcol : colIdx df.cols c with
            | some j =>
              calc applyListed c ("validate_length" :: ns) df
                  = (filterOnCol df c validLen).bind (applyListed c ns) := by
                    rw [applyListed, applyRuleName, if_neg (by decide), if_neg (by decide),
                      if_neg (by decide), if_pos rfl]
                _ = applyListed c ns ⟨df.cols, filterCol j validLen df.rows⟩ := by
                    rw [filterOnCol, hcol]
                    rfl
                _ = applyOptions ⟨df.cols, filterCol j validLen df.rows⟩ c ns := ih _
                _ = some ⟨df.cols, nfRows ns j (filterCol j validLen df.rows)⟩ :=
                    applyOptions_of_some df.cols (filterCol j validLen df.rows) c j hcol ns
                _ = some ⟨df.cols, nfRows ("validate_length" :: ns) j df.rows⟩ := by
                    rw [nfRows, nfRowsB_push_vl, nfRows, contains_cons_self,
                      contains_cons_ne "drop_duplicates" "validate_length" ns (by decide),
                      contains_cons_ne "remove_nulls" "validate_length" ns (by decide),
                      contains_cons_ne "validate_string" "validate_length" ns (by decide),
                      contains_cons_ne "validate_numeric" "validate_length" ns (by decide)]
                _ = applyOptions df c ("validate_length" :: ns) :=
                    (applyOptions_of_some df.cols df.rows c j hcol _).symm
            | none =>
              calc applyListed c ("validate_length" :: ns) df
                  = (filterOnCol df c validLen).bind (applyListed c ns) := by
                    rw [applyListed, applyRuleName, if_neg (by decide), if_neg (by decide),
                      if_neg (by decide), if_pos rfl]
                _ = none := by rw [filterOnCol, hcol]; rfl
                _ = applyOptions df c ("validate_length" :: ns) := by
                    simp [applyOptions_of_none df c hcol, contains_cons_self]
          · by_cases h5 : n = "validate_numeric"
            · subst h5
              cases hcol : colIdx df.cols c with
              | some j =>
                calc applyListed c ("validate_numeric" :: ns) df
                    = (filterOnCol df c validNum).bind (applyListed c ns) := by
                      rw [applyListed, applyRuleName, if_neg (by decide), if_neg (by decide),
                        if_neg (by decide), if_neg (by decide), if_pos rfl]
                  _ = applyListed c ns ⟨df.cols, filterCol j validNum df.rows⟩ := by
                      rw [filterOnCol, hcol]
                      rfl
                  _ = applyOptions ⟨df.cols, filterCol j validNum df.rows⟩ c ns := ih _
                  _ = some ⟨df.cols, nfRows ns j (filterCol j validNum df.rows)⟩ :=
                      applyOptions_of_some df.cols (filterCol j validNum df.rows) c j hcol ns
                  _ = some ⟨df.cols, nfRows ("validate_numeric" :: ns) j df.rows⟩ := by
                      rw [nfRows, nfRowsB_push_vn, nfRows, contains_cons_self,
                        contains_cons_ne "drop_duplicates" "validate_numeric" ns (by decide),
                        contains_cons_ne "remove_nulls" "validate_numeric" ns (by decide),
                        contains_cons_ne "validate_string" "validate_numeric" ns (by decide),
                        contains_cons_ne "validate_length" "validate_numeric" ns (by decide)]
                  _ = applyOptions df c ("validate_numeric" :: ns) :=
                      (applyOptions_of_some df.cols df.rows c j hcol _).symm
              | none =>
                calc applyListed c ("validate_numeric" :: ns) df
                    = (filterOnCol df c validNum).bind (applyListed c ns) := by
                      rw [applyListed, applyRuleName, if_neg (by decide), if_neg (by decide),
                        if_neg (by decide), if_neg (by decide), if_pos rfl]
                  _ = none := by rw [filterOnCol, hcol]; rfl
                  _ = applyOptions df c ("validate_numeric" :: ns) := by
                      simp [applyOptions_of_none df c hcol, contains_cons_self]
            · have e : applyRuleName df c n = some df := by
                rw [applyRuleName, if_neg h1, if_neg h2, if_neg h3, if_neg h4, if_neg h5]
              calc applyListed c (n :: ns) df
                  = (applyRuleName df c n).bind (applyListed c ns) := rfl
                _ = applyListed c ns df := by rw [e]; rfl
                _ = applyOptions df c ns := ih df
                _ = applyOptions df c (n :: ns) := by
                    refine (applyOptions_congr df c (n :: ns) ns ?_ ?_ ?_ ?_ ?_).symm
                    · exact contains_cons_ne "drop_duplicates" n ns
                        (beq_eq_false_iff_ne.mpr (fun he => h1 he.symm))
                    · exact contains_cons_ne "remove_nulls" n ns
                        (beq_eq_false_iff_ne.mpr (fun he => h2 he.symm))
                    · exact contains_cons_ne "validate_string" n ns
                        (beq_eq_false_iff_ne.mpr (fun he => h3 he.symm))
                    · exact contains_cons_ne "validate_length" n ns
                        (beq_eq_false_iff_ne.mpr (fun he => h4 he.symm))
                    · exact contains_cons_ne "validate_numeric" n ns
                        (beq_eq_false_iff_ne.mpr (fun he => h5 he.symm))

theorem cleanBodyListed_eq (df : Dataset) (opts : RuleSet) :
    cleanBodyListed df opts = cleanBody df opts := by
  induction opts generalizing df with
  | nil => rfl
  | cons e rest ih =>
    cases e with
    | mk c os =>
      simp only [cleanBodyListed, cleanBody, applyListed_eq]
      cases applyOptions df c os <;> simp [ih]

theorem cleanDataListed_eq (df : Dataset) (opts : RuleSet) :
    cleanDataListed df opts = clean_data df opts := by
  rw [cleanDataListed, clean_data, cleanBodyListed_eq]

theorem stepIf_sublist (b : Bool) (f : List Row → List Row) (rows : List Row)
    (hf : ∀ rs, List.Sublist (f rs) rs) : List.Sublist (stepIf b f rows) rows := by
  cases b
  · exact List.Sublist.refl rows
  · exact hf rows

theorem nfRowsB_sublist (b1 b2 b3 b4 b5 : Bool) (j : Nat) (rows : List Row) :
    List.Sublist (nfRowsB b1 b2 b3 b4 b5 j rows) rows := by
  have t1 := stepIf_sublist b1 (dedupRows j) rows (fun rs => dedupRows_sublist j rs)
  have t2 := stepIf_sublist b2 (filterCol j isNotNull) (stepIf b1 (dedupRows j) rows)
    (fun rs => filterCol_sublist j _ rs)
  have t3 := stepIf_sublist b3 (filterCol j validStr)
    (stepIf b2 (filterCol j isNotNull) (stepIf b1 (dedupRows j) rows))
    (fun rs => filterCol_sublist j _ rs)
  have t4 := stepIf_sublist b4 (filterCol j validLen)
    (stepIf b3 (filterCol j validStr)
      (stepIf b2 (filterCol j isNotNull) (stepIf b1 (dedupRows j) rows)))
    (fun rs => filterCol_sublist j _ rs)
  have t5 := stepIf_sublist b5 (filterCol j validNum)
    (stepIf b4 (filterCol j validLen)
      (stepIf b3 (filterCol j validStr)
        (stepIf b2 (filterCol j isNotNull) (stepIf b1 (dedupRows j) rows))))
    (fun rs => filterCol_sublist j _ rs)
  exact t5.trans (t4.trans (t3.trans (t2.trans t1)))

theorem nfRows_sublist (os : List String) (j : Nat) (rows : List Row) :
    List.Sublist (nfRows os j rows) rows := nfRowsB_sublist _ _ _ _ _ j rows

theorem applyOptions_cols_rows {df : Dataset} {c : String} {os : List String} {d : Dataset}
    (h : applyOptions df c os = some d) :
    d.cols = df.cols ∧ List.Sublist d.rows df.rows := by
  cases hcol : colIdx df.cols c with
  | some j =>
    have he := applyOptions_of_some df.cols df.rows c j hcol os
    have h2 : (some (⟨df.cols, nfRows os j df.rows⟩ : Dataset)) = some d := Eq.trans he.symm h
    cases h2
    exact ⟨rfl, nfRows_sublist os j df.rows⟩
  | none =>
    have he := applyOptions_of_none df c hcol os
    rw [he] at h
    split at h
    · exact absurd h (by simp)
    · cases h
      exact ⟨rfl, List.Sublist.refl _⟩

theorem cleanBody_cols_rows {df : Dataset} {opts : RuleSet} {d : Dataset}
    (h : cleanBody df opts = some d) :
    d.cols = df.cols ∧ List.Sublist d.rows df.rows := by
  induction opts generalizing df with
  | nil =>
    simp only [cleanBody] at h
    cases h
    exact ⟨rfl, List.Sublist.refl _⟩
  | cons e rest ih =>
    cases e with
    | mk c os =>
      simp only [cleanBody] at h
      cases happ : applyOptions df c os with
      | none =>
        rw [happ] at h
        exact absurd h (by simp)
      | some d1 =>
        rw [happ] at h
        simp only [Option.some_bind] at h
        obtain ⟨hc1, hs1⟩ := applyOptions_cols_rows happ
        obtain ⟨hc2, hs2⟩ := ih h
        exact ⟨hc2.trans hc1, hs2.trans hs1⟩

theorem cleanBody_isSome_of_present {df : Dataset} {opts : RuleSet}
    (h : ∀ e ∈ opts, e.1 ∈ df.cols) : ∃ d, cleanBody df opts = some d := by
  induction opts generalizing df with
  | nil => exact ⟨df, rfl⟩
  | cons e rest ih =>
    cases e with
    | mk c os =>
      have hc : c ∈ df.cols := h (c, os) (List.mem_cons_self _ _)
      obtain ⟨j, hj⟩ : ∃ j, colIdx df.cols c = some j := by
        cases hcol : colIdx df.cols c with
        | none => exact absurd ((colIdx_eq_none_iff _ _).mp hcol) (by simp [hc])
        | some j => exact ⟨j, rfl⟩
      have happ := applyOptions_of_some df.cols df.rows c j hj os
      have hrest : ∀ e ∈ rest, e.1 ∈ (⟨df.cols, nfRows os j df.rows⟩ : Dataset).cols :=
        fun e he => h e (List.mem_cons_of_mem _ he)
      obtain ⟨d, hd⟩ := ih hrest
      refine ⟨d, ?_⟩
      show (applyOptions df c os).bind (fun x => cleanBody x rest) = some d
      rw [show applyOptions df c os = some ⟨df.cols, nfRows os j df.rows⟩ from happ]
      simpa using hd

theorem cleanBody_append (df : Dataset) (o1 o2 : RuleSet) :
    cleanBody df (o1 ++ o2) = (cleanBody df o1).bind (fun d => cleanBody d o2) := by
  induction o1 generalizing df with
  | nil => rfl
  | cons e rest ih =>
    cases e with
    | mk c os =>
      simp only [List.cons_append, cleanBody]
      cases applyOptions df c os <;> simp [ih]

theorem setIds_length (j k : Nat) (rows : List Row) :
    (setIds j k rows).length = rows.length := by
  induction rows generalizing k with
  | nil => rfl
  | cons r rs ih => simp [setIds, ih]

theorem appendIds_length (k : Nat) (rows : List Row) :
    (appendIds k rows).length = rows.length := by
  induction rows generalizing k with
  | nil => rfl
  | cons r rs ih => simp [appendIds, ih]

theorem setIds_cell (j : Nat) (rows : List Row) (hj : ∀ r ∈ rows, j < r.length) :
    ∀ k, (setIds j k rows).map (fun r => cell r j) =
      (List.range rows.length).map (fun i => Value.num (Int.ofNat (i + k))) := by
  induction rows with
  | nil => intro k; rfl
  | cons r rs ih =>
    intro k
    have hr : j < r.length := hj r (List.mem_cons_self _ _)
    have hrs : ∀ a ∈ rs, j < a.length := fun a ha => hj a (List.mem_cons_of_mem _ ha)
    simp only [setIds, List.map_cons, cell_set_self _ hr, List.length_cons]
    rw [ih hrs (k + 1), List.range_succ_eq_map, List.map_cons, List.map_map]
    have hfun : ((fun i => Value.num (Int.ofNat (i + k))) ∘ Nat.succ) =
        (fun i => Value.num (Int.ofNat (i + (k + 1)))) := by
      funext i
      simp only [Function.comp_apply, Value.num.injEq, Int.ofNat.injEq]
      omega
    rw [hfun]
    simp

theorem appendIds_cell (L : Nat) (rows : List Row) (hL : ∀ r ∈ rows, r.length = L) :
    ∀ k, (appendIds k rows).map (fun r => cell r L) =
      (List.range rows.length).map (fun i => Value.num (Int.ofNat (i + k))) := by
  induction rows with
  | nil => intro k; rfl
  | cons r rs ih =>
    intro k
    have hr : r.length = L := hL r (List.mem_cons_self _ _)
    have hrs : ∀ a ∈ rs, a.length = L := fun a ha => hL a (List.mem_cons_of_mem _ ha)
    have hcell : cell (r ++ [Value.num (Int.ofNat k)]) L = Value.num (Int.ofNat k) := by
      rw [← hr]
      exact cell_append_len r _
    simp only [appendIds, List.map_cons, hcell, List.length_cons]
    rw [ih hrs (k + 1), List.range_succ_eq_map, List.map_cons, List.map_map]
    have hfun : ((fun i => Value.num (Int.ofNat (i + k))) ∘ Nat.succ) =
        (fun i => Value.num (Int.ofNat (i + (k + 1)))) := by
      funext i
      simp only [Function.comp_apply, Value.num.injEq, Int.ofNat.injEq]
      omega
    rw [hfun]
    simp

theorem setIds_strip (j k : Nat) (rows : List Row) :
    (setIds j k rows).map (fun r => r.eraseIdx j) = rows.map (fun r => r.eraseIdx j) := by
  induction rows generalizing k with
  | nil => rfl
  | cons r rs ih => simp [setIds, eraseIdx_set, ih]

theorem appendIds_strip (L k : Nat) (rows : List Row) (h : ∀ r ∈ rows, r.length = L) :
    (appendIds k rows).map (fun r => r.eraseIdx L) = rows := by
  induction rows generalizing k with
  | nil => rfl
  | cons r rs ih =>
    have hr : r.length = L := h r (List.mem_cons_self _ _)
    have hrs : ∀ a ∈ rs, a.length = L := fun a ha => h a (List.mem_cons_of_mem _ ha)
    have he : (r ++ [Value.num (Int.ofNat k)]).eraseIdx L = r := by
      rw [← hr]
      exact eraseIdx_append_len r _
    simp only [appendIds, List.map_cons]
    rw [he, ih (k + 1) hrs]

theorem assignId_spec (d : Dataset) (hwf : ∀ r ∈ d.rows, r.length = d.cols.length) :
    getCol (assignId d) "id" = some (idList d.rows.length) ∧
    (assignId d).rows.length = d.rows.length ∧
    (assignId d).cols = (if "id" ∈ d.cols then d.cols else d.cols ++ ["id"]) := by
  cases hid : colIdx d.cols "id" with
  | some j =>
    have hj : j < d.cols.length := colIdx_lt hid
    have hmem : "id" ∈ d.cols := colIdx_mem hid
    have hj2 : ∀ r ∈ d.rows, j < r.length := fun r hr => (hwf r hr).symm ▸ hj
    have ha : assignId d = ⟨d.cols, setIds j 1 d.rows⟩ := by rw [assignId, hid]
    refine ⟨?_, ?_, ?_⟩
    · rw [ha, getCol]
      show Option.map _ (colIdx d.cols "id") = _
      rw [hid, Option.map_some']
      refine congrArg some ?_
      show (setIds j 1 d.rows).map (fun r => cell r j) = idList d.rows.length
      rw [setIds_cell j d.rows hj2 1, idList, ← setIds_length j 1 d.rows,
        setIds_length j 1 d.rows]
    · rw [ha]
      exact setIds_length j 1 d.rows
    · rw [ha, if_pos hmem]
  | none =>
    have hmem : "id" ∉ d.cols := (colIdx_eq_none_iff _ _).mp hid
    have ha : assignId d = ⟨d.cols ++ ["id"], appendIds 1 d.rows⟩ := by rw [assignId, hid]
    have hcA : colIdx (d.cols ++ ["id"]) "id" = some d.cols.length :=
      colIdx_append_self d.cols "id" hmem
    refine ⟨?_, ?_, ?_⟩
    · rw [ha, getCol]
      show Option.map _ (colIdx (d.cols ++ ["id"]) "id") = _
      rw [hcA, Option.map_some']
      refine congrArg some ?_
      show (appendIds 1 d.rows).map (fun r => cell r d.cols.length) = idList d.rows.length
      rw [appendIds_cell d.cols.length d.rows hwf 1, idList]
    · rw [ha]
      exact appendIds_length 1 d.rows
    · rw [ha, if_neg hmem]

theorem mem_assignId_cols (d : Dataset) : "id" ∈ (assignId d).cols := by
  cases hid : colIdx d.cols "id" with
  | some j =>
    have : assignId d = ⟨d.cols, setIds j 1 d.rows⟩ := by rw [assignId, hid]
    rw [this]
    exact colIdx_mem hid
  | none =>
    have : assignId d = ⟨d.cols ++ ["id"], appendIds 1 d.rows⟩ := by rw [assignId, hid]
    rw [this]
    exact List.mem_append_right _ (List.mem_cons_self _ _)

theorem applyOptions_of_noRule (df : Dataset) (c : String) (os : List String)
    (h : os.any isRuleName = false) : applyOptions df c os = some df := by
  have hall : ∀ x ∈ os, isRuleName x = false := by
    intro x hx
    by_contra hc
    have ht : os.any isRuleName = true :=
      List.any_eq_true.mpr ⟨x, hx, by simpa using hc⟩
    rw [h] at ht
    exact Bool.noConfusion ht
  have h1 : "drop_duplicates" ∉ os := fun hm => absurd (hall _ hm) (by decide)
  have h2 : "remove_nulls" ∉ os := fun hm => absurd (hall _ hm) (by decide)
  have h3 : "validate_string" ∉ os := fun hm => absurd (hall _ hm) (by decide)
  have h4 : "validate_length" ∉ os := fun hm => absurd (hall _ hm) (by decide)
  have h5 : "validate_numeric" ∉ os := fun hm => absurd (hall _ hm) (by decide)
  simp [applyOptions, h1, h2, h3, h4, h5]

theorem cleanBody_of_noRule {df : Dataset} {opts : RuleSet}
    (h : anyRuleConfigured opts = false) : cleanBody df opts = some df := by
  induction opts generalizing df with
  | nil => rfl
  | cons e rest ih =>
    cases e with
    | mk c os =>
      have hp : (os.any isRuleName || anyRuleConfigured rest) = false := h
      have hos : os.any isRuleName = false := by
        cases hb : os.any isRuleName
        · rfl
        · rw [hb] at hp
          exact Bool.noConfusion hp
      have hrest : anyRuleConfigured rest = false := by
        cases hb : anyRuleConfigured rest
        · rfl
        · rw [hb, Bool.or_true] at hp
          exact Bool.noConfusion hp
      show (applyOptions df c os).bind (fun d => cleanBody d rest) = some df
      rw [applyOptions_of_noRule df c os hos]
      simpa using ih hrest

theorem applyOptions_none_of_missing (df : Dataset) (c : String) (os : List String)
    (hc : c ∉ df.cols) (hr : os.any isRuleName = true) : applyOptions df c os = none := by
  have hcol : colIdx df.cols c = none := (colIdx_eq_none_iff _ _).mpr hc
  rw [applyOptions_of_none df c hcol os]
  obtain ⟨x, hx, hpx⟩ := List.any_eq_true.mp hr
  have hpx2 : x = "drop_duplicates" ∨ x = "remove_nulls" ∨ x = "validate_string" ∨
      x = "validate_length" ∨ x = "validate_numeric" := by
    have := hpx
    simp only [isRuleName, Bool.or_eq_true, beq_iff_eq] at this
    tauto
  rcases hpx2 with h | h | h | h | h <;> subst h <;> simp [hx]

theorem cleanBody_none_of_missing {df : Dataset} {opts : RuleSet}
    (h : ∃ e ∈ opts, e.1 ∉ df.cols ∧ e.2.any isRuleName = true) :
    cleanBody df opts = none := by
  induction opts generalizing df with
  | nil =>
    obtain ⟨e, he, _⟩ := h
    exact absurd he (List.not_mem_nil e)
  | cons e0 rest ih =>
    cases e0 with
    | mk c os =>
      obtain ⟨e, he, hmiss, hrule⟩ := h
      show (applyOptions df c os).bind (fun d => cleanBody d rest) = none
      rcases List.mem_cons.mp he with heq | hrest
      · have h1 : applyOptions df c os = none := by
          refine applyOptions_none_of_missing df c os ?_ ?_
          · simpa [heq] using hmiss
          · simpa [heq] using hrule
        rw [h1]
        rfl
      · cases happ : applyOptions df c os with
        | none => rfl
        | some d1 =>
          have hcols := (applyOptions_cols_rows happ).1
          have h1 : ∃ e ∈ rest, e.1 ∉ d1.cols ∧ e.2.any isRuleName = true :=
            ⟨e, hrest, by rw [hcols]; exact hmiss, hrule⟩
          simpa using ih h1

theorem stripId_of_idx {df : Dataset} {j : Nat} (h : colIdx df.cols "id" = some j) :
    stripId df = ⟨df.cols.eraseIdx j, df.rows.map (fun r => r.eraseIdx j)⟩ := by
  unfold stripId
  rw [h]

theorem stripId_of_none {df : Dataset} (h : colIdx df.cols "id" = none) :
    stripId df = df := by
  unfold stripId
  rw [h]

/-- Claim C1, counterexample: on the very construction the spec proposes (a
column holding a null and a non-numeric string, cleaned with the rule lists
[validate_numeric, remove_nulls] and [remove_nulls, validate_numeric]), the
two results do not differ: they are equal under the implementation and
equal under listed-order semantics, so the asserted order sensitivity of
this pair is absent. -/
theorem C1_order_counterexample :
    clean_data ⟨["v"], [[Value.null], [Value.str "abc"], [Value.str "7"]]⟩
        [("v", ["validate_numeric", "remove_nulls"])] =
      clean_data ⟨["v"], [[Value.null], [Value.str "abc"], [Value.str "7"]]⟩
        [("v", ["remove_nulls", "validate_numeric"])] ∧
    cleanDataListed ⟨["v"], [[Value.null], [Value.str "abc"], [Value.str "7"]]⟩
        [("v", ["validate_numeric", "remove_nulls"])] =
      cleanDataListed ⟨["v"], [[Value.null], [Value.str "abc"], [Value.str "7"]]⟩
        [("v", ["remove_nulls", "validate_numeric"])] := by
  constructor
  · decide
  · decide

/-- Claim C1 (amended): clean_data tests membership of each rule name and
applies the rules of a column in a fixed textual order, yet its result
always coincides with applying them in the listed order, because the five
rules of one column commute pairwise; in particular the two listed orders
[validate_numeric, remove_nulls] and [remove_nulls, validate_numeric]
always produce equal results. -/
theorem C1_listed_order_equiv (df : Dataset) (opts : RuleSet) (c : String) :
    cleanDataListed df opts = clean_data df opts ∧
    applyListed c ["validate_numeric", "remove_nulls"] df =
      applyListed c ["remove_nulls", "validate_numeric"] df := by
  refine ⟨cleanDataListed_eq df opts, ?_⟩
  rw [applyListed_eq, applyListed_eq]
  exact applyOptions_congr df c _ _ (by decide) (by decide) (by decide) (by decide) (by decide)

/-- Claim C2, counterexample: a rule list for a column the dataset does
not have makes clean_data raise and return the empty dataframe; the other
configured column is not cleaned, contrary to the claimed skip-and-continue
policy, whose result would keep one row. -/
theorem C2_skip_counterexample :
    clean_data ⟨["a"], [[Value.null], [Value.str "ok"]]⟩
        [("zz", ["remove_nulls"]), ("a", ["remove_nulls"])] = Dataset.empty ∧
    cleanDataSkip ⟨["a"], [[Value.null], [Value.str "ok"]]⟩
        [("zz", ["remove_nulls"]), ("a", ["remove_nulls"])] =
      ⟨["a", "id"], [[Value.str "ok", Value.num 1]]⟩ ∧
    clean_data ⟨["a"], [[Value.null], [Value.str "ok"]]⟩
        [("zz", ["remove_nulls"]), ("a", ["remove_nulls"])] ≠
      cleanDataSkip ⟨["a"], [[Value.null], [Value.str "ok"]]⟩
        [("zz", ["remove_nulls"]), ("a", ["remove_nulls"])] := by
  refine ⟨by decide, by decide, by decide⟩

/-- Claim C2 (amended): a rule-set entry that names a column absent from
the dataset and carries at least one recognised rule is not skipped: the
rule application raises, the whole clean aborts, and the empty dataframe
is returned, so the remaining configured columns are not cleaned. -/
theorem C2_unknown_column_aborts {df : Dataset} {opts : RuleSet}
    (h : ∃ e ∈ opts, e.1 ∉ df.cols ∧ e.2.any isRuleName = true) :
    clean_data df opts = Dataset.empty := by
  rw [clean_data, cleanBody_none_of_missing h]

/-- Claim C2 witness: the amended abort behaviour at a concrete dataset
and rule set naming a missing column. -/
theorem C2_unknown_column_aborts_witness :
    clean_data ⟨["a"], [[Value.str "x"]]⟩ [("zz", ["remove_nulls"])] = Dataset.empty :=
  C2_unknown_column_aborts (by decide)

/-- Claim C3, counterexample: when the configured rule lists contain no
recognised rule, the id-assignment statement runs against the original
caller-owned dataframe and mutates it, so the input does not survive
unchanged. -/
theorem C3_mutation_counterexample :
    inputAfterClean ⟨["a"], [[Value.str "x"]]⟩ [("a", [])] ≠
      ⟨["a"], [[Value.str "x"]]⟩ := by
  decide

/-- Claim C3 (amended): clean_data leaves the input dataset unmodified
whenever at least one recognised rule is configured, because the first
rule application rebinds the local name to a fresh dataframe; when no
recognised rule is configured, the per-column loop is an identity, the id
column is written into the original input object, and the mutated input is
exactly the returned dataset. -/
theorem C3_input_mutation (df : Dataset) (opts : RuleSet) :
    (anyRuleConfigured opts = true → inputAfterClean df opts = df) ∧
    (anyRuleConfigured opts = false →
      cleanBody df opts = some df ∧ inputAfterClean df opts = clean_data df opts) := by
  constructor
  · intro h
    rw [inputAfterClean, if_pos h]
  · intro h
    have hb : cleanBody df opts = some df := cleanBody_of_noRule h
    refine ⟨hb, ?_⟩
    rw [inputAfterClean, if_neg (by simp [h]), clean_data, hb]

/-- Claim C3 witness: both branches of the amended mutation behaviour at
concrete inputs. -/
theorem C3_input_mutation_witness :
    inputAfterClean ⟨["a"], [[Value.null]]⟩ [("a", ["remove_nulls"])] =
      ⟨["a"], [[Value.null]]⟩ ∧
    inputAfterClean ⟨["a"], [[Value.str "x"]]⟩ [("a", [])] =
      clean_data ⟨["a"], [[Value.str "x"]]⟩ [("a", [])] :=
  ⟨(C3_input_mutation _ _).1 (by decide), ((C3_input_mutation _ _).2 (by decide)).2⟩

/-- Claim C4, counterexample: clean_data iterates the rule-set mapping in
its own insertion order, not in dataset column order; with the rule set
listing column b before column a, the implementation and the
dataset-column-order semantics give different results on a concrete
dataset. -/
theorem C4_order_counterexample :
    clean_data ⟨["a", "b"], [[Value.str "x", Value.null], [Value.str "x", Value.str "22"]]⟩
        [("b", ["remove_nulls"]), ("a", ["drop_duplicates"])] ≠
      cleanDataColOrder
        ⟨["a", "b"], [[Value.str "x", Value.null], [Value.str "x", Value.str "22"]]⟩
        [("b", ["remove_nulls"]), ("a", ["drop_duplicates"])] := by
  decide

/-- Claim C4 (amended): clean_data processes the rule-set entries in the
order the mapping lists them, threading the cumulative row-filtered state:
the body over a concatenation of two rule sets is the body of the first
followed by the body of the second on its result. -/
theorem C4_rule_set_order (df : Dataset) (o1 o2 : RuleSet) :
    cleanBody df (o1 ++ o2) = (cleanBody df o1).bind (fun d => cleanBody d o2) :=
  cleanBody_append df o1 o2

/-- Claim C5: for a well-formed dataset and a rule set naming only present
columns, clean_data succeeds; the result has at most as many rows as the
input, its id column holds exactly the integers 1..n in row order where n
is the result row count, and the id column overwrites a pre-existing id
column rather than duplicating it. -/
theorem C5_shape {df : Dataset} {opts : RuleSet} (hwf : df.WF)
    (h : ∀ e ∈ opts, e.1 ∈ df.cols) :
    (∃ d, cleanBody df opts = some d) ∧
    (clean_data df opts).rowCount ≤ df.rowCount ∧
    getCol (clean_data df opts) "id" = some (idList (clean_data df opts).rowCount) ∧
    (clean_data df opts).cols = (if "id" ∈ df.cols then df.cols else df.cols ++ ["id"]) := by
  obtain ⟨d, hd⟩ := cleanBody_isSome_of_present h
  obtain ⟨hcols, hsub⟩ := cleanBody_cols_rows hd
  have hwfd : ∀ r ∈ d.rows, r.length = d.cols.length := by
    intro r hr
    rw [hcols]
    exact hwf.2 r (hsub.subset hr)
  obtain ⟨hgc, hlen, hcols2⟩ := assignId_spec d hwfd
  have hcd : clean_data df opts = assignId d := by rw [clean_data, hd]
  refine ⟨⟨d, hd⟩, ?_, ?_, ?_⟩
  · rw [hcd, Dataset.rowCount, Dataset.rowCount, hlen]
    exact hsub.length_le
  · rw [hcd, Dataset.rowCount, hlen]
    exact hgc
  · rw [hcd, hcols2, hcols]

/-- Claim C5 witness: the shape guarantees at the empty dataset (empty
result with a zero-length id column) and at a one-column dataset with a
null-filtering rule. -/
theorem C5_shape_witness :
    ((⟨[], []⟩ : Dataset).WF ∧
      (clean_data ⟨[], []⟩ []).rowCount ≤ (⟨[], []⟩ : Dataset).rowCount ∧
      getCol (clean_data ⟨[], []⟩ []) "id" = some (idList (clean_data ⟨[], []⟩ []).rowCount)) ∧
    getCol (clean_data ⟨["a"], [[Value.null], [Value.str "b"]]⟩ [("a", ["remove_nulls"])])
        "id" =
      some (idList (clean_data ⟨["a"], [[Value.null], [Value.str "b"]]⟩
        [("a", ["remove_nulls"])]).rowCount) := by
  have h1 := C5_shape (show (⟨[], []⟩ : Dataset).WF from ⟨by decide, by decide⟩)
    (show ∀ e ∈ ([] : RuleSet), e.1 ∈ (⟨[], []⟩ : Dataset).cols by decide)
  have h2 := C5_shape
    (show (⟨["a"], [[Value.null], [Value.str "b"]]⟩ : Dataset).WF from ⟨by decide, by decide⟩)
    (show ∀ e ∈ [("a", ["remove_nulls"])],
      e.1 ∈ (⟨["a"], [[Value.null], [Value.str "b"]]⟩ : Dataset).cols by decide)
  exact ⟨⟨⟨by decide, by decide⟩, h1.2.1, h1.2.2.1⟩, h2.2.2.1⟩

/-- Claim C6: clean_data never returns a partially cleaned dataset: either
the whole per-column body succeeds and the result is exactly that fully
transformed dataset with the id column assigned (and present), or the call
fails as a whole and the empty dataframe is returned. -/
theorem C6_no_partial_commit (df : Dataset) (opts : RuleSet) :
    clean_data df opts = Dataset.empty ∨
    ∃ d, cleanBody df opts = some d ∧ clean_data df opts = assignId d ∧
      "id" ∈ (clean_data df opts).cols := by
  cases hd : cleanBody df opts with
  | none =>
    left
    rw [clean_data, hd]
  | some d =>
    right
    have hcd : clean_data df opts = assignId d := by rw [clean_data, hd]
    exact ⟨d, rfl, hcd, by rw [hcd]; exact mem_assignId_cols d⟩

/-- Claim C7: on the two-column scenario dataset, cleaning drops the
duplicate "alice" row, the null-name row and the non-numeric-age row, and
returns the single surviving row with id 1. -/
theorem C7_scenario :
    clean_data
        ⟨["name", "age"],
         [[Value.str "alice", Value.str "30"], [Value.str "alice", Value.str "31"],
          [Value.null, Value.str "25"], [Value.str "bo", Value.str "x"]]⟩
        [("name", ["drop_duplicates", "remove_nulls"]), ("age", ["validate_numeric"])] =
      ⟨["name", "age", "id"], [[Value.str "alice", Value.str "30", Value.num 1]]⟩ := by
  decide

/-- Claim C8: the validate_length rule keeps exactly the rows whose cell
in the configured column has a textual representation of length at least
three; a three-character string passes, a two-character string fails, and
the number 12 is stringified to a two-character text and fails. -/
theorem C8_validate_length {df : Dataset} {c : String} {j : Nat}
    (h : colIdx df.cols c = some j) :
    applyOptions df c ["validate_length"] =
      some ⟨df.cols, df.rows.filter (fun r => decide (3 ≤ (toText (cell r j)).length))⟩ ∧
    validLen (Value.str "abc") = true ∧ validLen (Value.str "ab") = false ∧
    validLen (Value.num 12) = false := by
  refine ⟨?_, by decide, by decide, by decide⟩
  have he := applyOptions_of_some df.cols df.rows c j h ["validate_length"]
  exact he

/-- Claim C8 witness: the validate_length filter at a concrete dataset,
keeping only the three-character string. -/
theorem C8_validate_length_witness :
    applyOptions (⟨["a"], [[Value.str "abc"], [Value.str "ab"], [Value.num 12]]⟩ : Dataset)
        "a" ["validate_length"] = some ⟨["a"], [[Value.str "abc"]]⟩ ∧
    validLen (Value.num 12) = false := by
  have h := C8_validate_length
    (show colIdx (⟨["a"], [[Value.str "abc"], [Value.str "ab"], [Value.num 12]]⟩
      : Dataset).cols "a" = some 0 by decide)
  exact ⟨h.1.trans (by decide), h.2.2.2⟩

/-- Claim C9: applying drop_duplicates on a column twice in sequence
yields the same dataset as applying it once, and the deduplicated rows are
a subsequence of the original rows (first occurrences, order kept). -/
theorem C9_dedup_idempotent (df : Dataset) (c : String) :
    cleanBody df [(c, ["drop_duplicates"]), (c, ["drop_duplicates"])] =
      cleanBody df [(c, ["drop_duplicates"])] ∧
    List.Sublist (((dropDuplicatesCol df c).getD df).rows) df.rows := by
  constructor
  · cases hcol : colIdx df.cols c with
    | none =>
      have h1 : applyOptions df c ["drop_duplicates"] = none := by
        rw [applyOptions_of_none df c hcol, if_pos (by decide)]
      simp only [cleanBody, h1, Option.none_bind]
    | some j =>
      have h1 : applyOptions df c ["drop_duplicates"] =
          some ⟨df.cols, dedupRows j df.rows⟩ :=
        applyOptions_of_some df.cols df.rows c j hcol ["drop_duplicates"]
      have h2 : applyOptions ⟨df.cols, dedupRows j df.rows⟩ c ["drop_duplicates"] =
          some ⟨df.cols, dedupRows j (dedupRows j df.rows)⟩ :=
        applyOptions_of_some df.cols (dedupRows j df.rows) c j hcol ["drop_duplicates"]
      show (applyOptions df c ["drop_duplicates"]).bind _ =
        (applyOptions df c ["drop_duplicates"]).bind _
      rw [h1]
      simp only [Option.some_bind, cleanBody]
      rw [h2]
      simp [dedupRows_idem]
  · cases hcol : colIdx df.cols c with
    | none =>
      have h1 : dropDuplicatesCol df c = none := by
        rw [dropDuplicatesCol, hcol]
        rfl
      rw [h1]
      exact List.Sublist.refl _
    | some j =>
      have h1 : dropDuplicatesCol df c = some ⟨df.cols, dedupRows j df.rows⟩ := by
        rw [dropDuplicatesCol, hcol]
        rfl
      rw [h1]
      exact dedupRows_sublist j df.rows

/-- Claim C10: on success, every output row (with the synthetic id column
removed) is an input row (with any id column removed) with its cell values
unchanged, and surviving rows keep their relative order: the configured
rules only delete whole rows. -/
theorem C10_rows_preserved {df : Dataset} {opts : RuleSet} {d : Dataset} (hwf : df.WF)
    (h : cleanBody df opts = some d) :
    (stripId (clean_data df opts)).cols = (stripId df).cols ∧
    List.Sublist (stripId (clean_data df opts)).rows (stripId df).rows := by
  obtain ⟨hcols, hsub⟩ := cleanBody_cols_rows h
  have hcd : clean_data df opts = assignId d := by rw [clean_data, h]
  have hwfd : ∀ r ∈ d.rows, r.length = d.cols.length := by
    intro r hr
    rw [hcols]
    exact hwf.2 r (hsub.subset hr)
  cases hid : colIdx df.cols "id" with
  | some j =>
    have hidd : colIdx d.cols "id" = some j := by rw [hcols]; exact hid
    have ha : assignId d = ⟨d.cols, setIds j 1 d.rows⟩ := by rw [assignId, hidd]
    have hsA : stripId (assignId d) =
        ⟨d.cols.eraseIdx j, d.rows.map (fun r => r.eraseIdx j)⟩ := by
      rw [ha, stripId_of_idx (show colIdx (⟨d.cols, setIds j 1 d.rows⟩ : Dataset).cols "id"
        = some j from hidd)]
      show (⟨d.cols.eraseIdx j, (setIds j 1 d.rows).map (fun r => r.eraseIdx j)⟩ : Dataset) = _
      rw [setIds_strip]
    have hsD : stripId df = ⟨df.cols.eraseIdx j, df.rows.map (fun r => r.eraseIdx j)⟩ :=
      stripId_of_idx hid
    rw [hcd, hsA, hsD]
    exact ⟨by rw [hcols], hsub.map _⟩
  | none =>
    have hidd : colIdx d.cols "id" = none := by rw [hcols]; exact hid
    have hmem : "id" ∉ d.cols := (colIdx_eq_none_iff _ _).mp hidd
    have ha : assignId d = ⟨d.cols ++ ["id"], appendIds 1 d.rows⟩ := by rw [assignId, hidd]
    have hsA : stripId (assignId d) = ⟨d.cols, d.rows⟩ := by
      rw [ha, stripId_of_idx (show colIdx (⟨d.cols ++ ["id"], appendIds 1 d.rows⟩
        : Dataset).cols "id" = some d.cols.length from colIdx_append_self d.cols "id" hmem)]
      show (⟨(d.cols ++ ["id"]).eraseIdx d.cols.length,
        (appendIds 1 d.rows).map (fun r => r.eraseIdx d.cols.length)⟩ : Dataset) = _
      rw [eraseIdx_append_len, appendIds_strip d.cols.length 1 d.rows hwfd]
    have hsD : stripId df = df := stripId_of_none hid
    rw [hcd, hsA, hsD]
    exact ⟨by rw [hcols], hsub⟩

/-- Claim C10 witness: the row preservation at a concrete dataset with a
duplicate row removed. -/
theorem C10_rows_preserved_witness :
    (stripId (clean_data ⟨["a"], [[Value.str "x"], [Value.str "x"]]⟩
        [("a", ["drop_duplicates"])])).cols =
      (stripId ⟨["a"], [[Value.str "x"], [Value.str "x"]]⟩).cols ∧
    List.Sublist
      (stripId (clean_data ⟨["a"], [[Value.str "x"], [Value.str "x"]]⟩
        [("a", ["drop_duplicates"])])).rows
      (stripId ⟨["a"], [[Value.str "x"], [Value.str "x"]]⟩).rows :=
  C10_rows_preserved ⟨by decide, by decide⟩
    (show cleanBody ⟨["a"], [[Value.str "x"], [Value.str "x"]]⟩ [("a", ["drop_duplicates"])]
      = some ⟨["a"], [[Value.str "x"]]⟩ by decide)

end ETL
